import Mathlib

/-!
# Verification of the AnyAudio speech-to-text pipeline

Shallow embedding of the core pipeline of the AnyAudio repository
(`AudioConverter` and `AudioService` in `src/app.js`) together with
proofs of the behavioural claims about it.

External collaborators (Node's `path` module, the filesystem, the
`fluent-ffmpeg` conversion executable and the remote Groq
transcription service) are modelled explicitly: `path` functions are
reimplemented for POSIX-style paths, the filesystem is a list of
existing file paths, and ffmpeg / the remote service / write
permissions are oracles supplied in an environment record.
-/

namespace AnyAudio

/-! ## Path model (Node `path`, POSIX flavour)

The repository only ever joins a directory with a plain entry name and
takes basenames/extnames of ordinary file paths (no trailing slashes,
no `.`/`..` segments), so the model covers exactly that fragment of
Node's behaviour. -/

/-- Characters of `l` strictly after the last occurrence of `c`
(`l` itself when `c` does not occur). -/
def afterLast (c : Char) (l : List Char) : List Char :=
  (l.reverse.takeWhile (fun a => a ≠ c)).reverse

/-- Characters of `l` strictly before the last occurrence of `c`
(`[]` when `c` does not occur). -/
def beforeLast (c : Char) (l : List Char) : List Char :=
  ((l.reverse.dropWhile (fun a => a ≠ c)).drop 1).reverse

/-- Node `path.basename(p)` for a path without trailing separators:
the part after the last `/`. -/
def basename (p : String) : String :=
  ⟨afterLast '/' p.data⟩

/-- Node `path.extname` restricted to a basename: the substring from
the last `.` to the end, empty when there is no dot or the only dot is
the leading one (dotfiles), and empty for the special name `..`. -/
def extnameOfBase (b : List Char) : List Char :=
  if b = ['.', '.'] then []
  else if '.' ∈ b then
    if beforeLast '.' b = [] then [] else '.' :: afterLast '.' b
  else []

/-- Node `path.extname(p)`. -/
def extname (p : String) : String :=
  ⟨extnameOfBase (afterLast '/' p.data)⟩

/-- Node `path.basename(p, ext)`: the basename with the suffix `ext`
stripped when it matches literally (the match is case-sensitive and
the whole basename is never stripped). -/
def basenameExt (p ext : String) : String :=
  let b := afterLast '/' p.data
  let e := ext.data
  if e ≠ [] ∧ b ≠ e ∧ e.IsSuffix b then ⟨b.take (b.length - e.length)⟩ else ⟨b⟩

/-- Node `path.dirname(p)` for a path without trailing separators. -/
def dirname (p : String) : String :=
  if '/' ∈ p.data then
    if beforeLast '/' p.data = [] then "/" else ⟨beforeLast '/' p.data⟩
  else "."

/-- Node `path.join(a, b)` for an already-normalised directory `a`
(no trailing slash) and plain entry name `b`. -/
def join2 (a b : String) : String :=
  if a = "" then b else if b = "" then a else a ++ "/" ++ b

/-- Node `path.parse(p).name`: the basename with its extension
removed. -/
def parseName (p : String) : String :=
  let b := afterLast '/' p.data
  ⟨b.take (b.length - (extnameOfBase b).length)⟩

/-- JavaScript `String.prototype.toLowerCase` for the ASCII strings
(file extensions) the pipeline compares. -/
def lowerStr (s : String) : String :=
  ⟨s.data.map Char.toLower⟩

/-! ## Data model

The result and parameter objects built by `src/app.js`.  JavaScript
object keys that are present only on some shapes are `Option` fields
(`none` models an absent key / `undefined`). -/

/-- A response payload from the remote service: either a bare string
(`text` response format) or a structured object with an optional
`text` field; the second `String` of `obj` models the
`JSON.stringify(transcription, null, 2)` dump of the object. -/
inductive Payload where
  | str : String → Payload
  | obj : Option String → String → Payload
deriving Repr, DecidableEq

/-- Result object of `AudioConverter.processAudioFile`.  The failure
branch of the source leaves `processedPath`, `originalFormat`,
`targetFormat` absent and the success branches leave `error` absent,
hence the `Option` fields. -/
structure ConversionResult where
  success : Bool
  originalPath : String
  processedPath : Option String
  wasConverted : Bool
  originalFormat : Option String
  targetFormat : Option String
  error : Option String
deriving Repr, DecidableEq

/-- The `metadata` object attached to transcription results,
translation results and batch failure records.  Only `fileName` and
`timestamp` are present on all three shapes. -/
structure Metadata where
  fileName : String
  originalFilePath : Option String
  processedFilePath : Option String
  filePath : Option String
  wasConverted : Option Bool
  conversionInfo : Option (String × String)
  model : Option String
  language : Option String
  targetLanguage : Option String
  timestamp : String
deriving Repr, DecidableEq

/-- A result object of `transcribeFile` / `translateFile`, or a batch
failure record pushed by `processAudioDirectory` (`success = false`,
`error` set, payloads absent). -/
structure SvcResult where
  success : Bool
  transcription : Option Payload
  translation : Option Payload
  error : Option String
  metadata : Metadata
deriving Repr, DecidableEq

/-- Outbound request parameters built by `transcribeFile` for
`client.audio.transcriptions.create`.  The `file` field stands for
the read stream of that path. -/
structure TranscriptionParams where
  file : String
  model : String
  response_format : String
  temperature : Rat
  language : Option String
  prompt : Option String
  timestamp_granularities : Option (List String)
deriving Repr, DecidableEq

/-- Outbound request parameters built by `translateFile` for
`client.audio.translations.create`. -/
structure TranslationParams where
  file : String
  model : String
  response_format : String
  temperature : Rat
  language : String
  prompt : Option String
deriving Repr, DecidableEq

/-- Caller options of `transcribeFile`; `none` models an absent key,
for which the source's destructuring defaults apply. -/
structure TranscribeOptions where
  language : Option String := none
  prompt : Option String := none
  responseFormat : Option String := none
  timestampGranularities : Option (List String) := none
  temperature : Option Rat := none
deriving Repr, DecidableEq

/-- Caller options of `translateFile`. -/
structure TranslateOptions where
  prompt : Option String := none
  responseFormat : Option String := none
  temperature : Option Rat := none
deriving Repr, DecidableEq

/-- The constructor state of `AudioService`: the configured Whisper
model identifier.  The source never reassigns `this.model`, so the
service is passed by value and never returned modified. -/
structure AudioService where
  model : String
deriving Repr, DecidableEq

/-- Oracles for the external collaborators.  `ffmpeg inputPath` is the
terminal event of the conversion executable (`none` = success event,
`some msg` = error event); `transcribe` / `translate` are the remote
service; `mkdirOk` / `writeOk` decide whether a filesystem write
succeeds at a path; `readdir` lists a directory; `now` is the clock
(`new Date().toISOString()`). -/
structure GroqEnv where
  ffmpeg : String → Option String
  transcribe : TranscriptionParams → Except String Payload
  translate : TranslationParams → Except String Payload
  mkdirOk : String → Bool
  writeOk : String → Bool
  readdir : String → Except String (List String)
  now : String

/-- The filesystem: the set of existing file paths.  `fs.access p`
succeeds iff `p` is a member; every write conses the written path. -/
abbrev FsState := List String

/-! ## AudioConverter (`src/app.js`, class `AudioConverter`) -/

/-- Source `needsConversion`: true iff the lowercased extension is the legacy
`.opus` container. -/
def needsConversion (filePath : String) : Bool :=
  decide (lowerStr (extname filePath) = ".opus")

/-- The derived output path of `convertOpusToMp4`: same directory,
`path.basename(inputPath, '.opus')` plus the `.mp4` target
extension. -/
def convertTarget (inputPath : String) : String :=
  join2 (dirname inputPath) (basenameExt inputPath ".opus" ++ ".mp4")

/-- Source `convertOpusToMp4`: checks the input exists, then runs ffmpeg; on
the success event resolves with the derived output path (which now
exists); on the error event rejects with the wrapped diagnostic. -/
def convertOpusToMp4 (env : GroqEnv) (fs : FsState) (inputPath : String) :
    Except String String × FsState :=
  if inputPath ∈ fs then
    match env.ffmpeg inputPath with
    | none => (.ok (convertTarget inputPath), convertTarget inputPath :: fs)
    | some msg =>
        (.error ("Error convirtiendo " ++ inputPath ++ ": " ++ msg), fs)
  else
    (.error "Error al convertir archivo OPUS: ENOENT: no such file or directory", fs)

/-- Source `processAudioFile`: converts when `needsConversion`, otherwise
passes the path through; every outcome, including conversion failure,
is returned in the `ConversionResult` (the source wraps the body in
`try/catch` and never throws). -/
def processAudioFile (env : GroqEnv) (fs : FsState) (filePath : String) :
    ConversionResult × FsState :=
  if needsConversion filePath then
    let cv := convertOpusToMp4 env fs filePath
    match cv.1 with
    | .ok convertedPath =>
        ({ success := true, originalPath := filePath,
           processedPath := some convertedPath, wasConverted := true,
           originalFormat := some "opus", targetFormat := some "mp4",
           error := none }, cv.2)
    | .error e =>
        ({ success := false, originalPath := filePath, processedPath := none,
           wasConverted := false, originalFormat := none, targetFormat := none,
           error := some e }, cv.2)
  else
    ({ success := true, originalPath := filePath, processedPath := some filePath,
       wasConverted := false, originalFormat := none, targetFormat := none,
       error := none }, fs)

/-! ## AudioService (`src/app.js`, class `AudioService`) -/

/-- JavaScript truthiness of an optional string option (`undefined`
and `''` are falsy), as used by the `if (language)` / `if (prompt)`
guards. -/
def truthyS : Option String → Bool
  | none => false
  | some s => s ≠ ""

/-- The `transcriptionParams` object built inside `transcribeFile`:
destructuring defaults (`responseFormat = 'verbose_json'`,
`timestampGranularities = ['segment']`, `temperature = 0`), truthy
guards for `language` and `prompt`, and `timestamp_granularities`
attached only for `verbose_json` with a non-empty granularity list. -/
def buildTranscriptionParams (model actualFilePath : String)
    (opts : TranscribeOptions) : TranscriptionParams :=
  let responseFormat := opts.responseFormat.getD "verbose_json"
  let timestampGranularities := opts.timestampGranularities.getD ["segment"]
  let base : TranscriptionParams :=
    { file := actualFilePath, model := model, response_format := responseFormat,
      temperature := opts.temperature.getD 0, language := none, prompt := none,
      timestamp_granularities := none }
  let p1 := if truthyS opts.language then { base with language := opts.language } else base
  let p2 := if truthyS opts.prompt then { p1 with prompt := opts.prompt } else p1
  if responseFormat = "verbose_json" ∧ 0 < timestampGranularities.length then
    { p2 with timestamp_granularities := some timestampGranularities }
  else p2

/-- The part of `transcribeFile` after the `fs.access` check, acting
on the `ConversionResult` of `processAudioFile`: abort on processing
failure, otherwise call the remote service on the processed path and
assemble the result; every thrown error is wrapped with the
`Error al transcribir el archivo:` stage prefix. -/
def transcribeAfter (env : GroqEnv) (svc : AudioService) (filePath : String)
    (opts : TranscribeOptions) (res : ConversionResult) : Except String SvcResult :=
  if res.success then
    let actualFilePath := res.processedPath.getD ""
    let fileName := basename actualFilePath
    let params := buildTranscriptionParams svc.model actualFilePath opts
    match env.transcribe params with
    | .error msg => .error ("Error al transcribir el archivo: " ++ msg)
    | .ok payload =>
        .ok { success := true, transcription := some payload, translation := none,
              error := none,
              metadata :=
                { fileName := fileName, originalFilePath := some filePath,
                  processedFilePath := some actualFilePath, filePath := none,
                  wasConverted := some res.wasConverted,
                  conversionInfo :=
                    if res.wasConverted then
                      some (res.originalFormat.getD "", res.targetFormat.getD "")
                    else none,
                  model := some svc.model,
                  language := some (if truthyS opts.language then opts.language.getD "" else "auto-detect"),
                  targetLanguage := none, timestamp := env.now } }
  else
    .error ("Error al transcribir el archivo: Error procesando archivo: "
      ++ res.error.getD "")

/-- Source `AudioService.transcribeFile`: verify the file exists, run
`processAudioFile`, then transcribe the processed path. -/
def transcribeFile (env : GroqEnv) (svc : AudioService) (fs : FsState)
    (filePath : String) (opts : TranscribeOptions) :
    Except String SvcResult × FsState :=
  if filePath ∈ fs then
    let pr := processAudioFile env fs filePath
    (transcribeAfter env svc filePath opts pr.1, pr.2)
  else
    (.error "Error al transcribir el archivo: ENOENT: no such file or directory", fs)

/-- The `translationParams` object built inside `translateFile`: the
fast (`turbo`) model variant is substituted by the precise variant for
this request only, response format defaults to `json`, the language is
forced to `'en'`. -/
def buildTranslationParams (model actualFilePath : String)
    (opts : TranslateOptions) : TranslationParams :=
  let base : TranslationParams :=
    { file := actualFilePath,
      model := if model = "whisper-large-v3-turbo" then "whisper-large-v3" else model,
      response_format := opts.responseFormat.getD "json",
      temperature := opts.temperature.getD 0,
      language := "en", prompt := none }
  if truthyS opts.prompt then { base with prompt := opts.prompt } else base

/-- The part of `translateFile` after the `fs.access` check; the
result metadata records `translationParams.model`, i.e. the model that
actually ran. -/
def translateAfter (env : GroqEnv) (svc : AudioService) (filePath : String)
    (opts : TranslateOptions) (res : ConversionResult) : Except String SvcResult :=
  if res.success then
    let actualFilePath := res.processedPath.getD ""
    let fileName := basename actualFilePath
    let params := buildTranslationParams svc.model actualFilePath opts
    match env.translate params with
    | .error msg => .error ("Error al traducir el archivo: " ++ msg)
    | .ok payload =>
        .ok { success := true, transcription := none, translation := some payload,
              error := none,
              metadata :=
                { fileName := fileName, originalFilePath := some filePath,
                  processedFilePath := some actualFilePath, filePath := none,
                  wasConverted := some res.wasConverted,
                  conversionInfo :=
                    if res.wasConverted then
                      some (res.originalFormat.getD "", res.targetFormat.getD "")
                    else none,
                  model := some params.model,
                  language := none, targetLanguage := some "en",
                  timestamp := env.now } }
  else
    .error ("Error al traducir el archivo: Error procesando archivo: "
      ++ res.error.getD "")

/-- Source `AudioService.translateFile`. -/
def translateFile (env : GroqEnv) (svc : AudioService) (fs : FsState)
    (filePath : String) (opts : TranslateOptions) :
    Except String SvcResult × FsState :=
  if filePath ∈ fs then
    let pr := processAudioFile env fs filePath
    (translateAfter env svc filePath opts pr.1, pr.2)
  else
    (.error "Error al traducir el archivo: ENOENT: no such file or directory", fs)

/-- Source `AudioService.saveTranscription`: create the output directory,
extract the body text from `transcriptionResult.transcription` (bare
string / truthy `text` field / `JSON.stringify` fallback; reading
`.text` of an absent `transcription` key throws a `TypeError`), and
write `<name>.txt`; every thrown error is wrapped with the
`Error al guardar transcripción:` prefix. -/
def saveTranscriptionResult (env : GroqEnv) (res : SvcResult)
    (outputDirectory : String) : Except String String :=
  if env.mkdirOk outputDirectory then
    let fileName := parseName res.metadata.fileName ++ ".txt"
    let outputPath := join2 outputDirectory fileName
    match res.transcription with
    | none =>
        .error "Error al guardar transcripción: Cannot read properties of undefined (reading 'text')"
    | some payload =>
        let content :=
          match payload with
          | .str s => s
          | .obj (some t) d => if t = "" then d else t
          | .obj none d => d
        let _fileContent :=
          "# Transcripción generada automáticamente\n# Archivo: "
            ++ res.metadata.fileName ++ "\n# Modelo: "
            ++ (res.metadata.model.getD "undefined") ++ "\n# Fecha: "
            ++ res.metadata.timestamp ++ "\n# Idioma: "
            ++ (res.metadata.language.getD "auto-detect") ++ "\n\n"
            ++ content ++ "\n"
        if env.writeOk outputPath then .ok outputPath
        else .error ("Error al guardar transcripción: EACCES: permission denied, open " ++ outputPath)
  else
    .error "Error al guardar transcripción: EACCES: permission denied, mkdir"

/-- Wrapper for `saveTranscription` with its filesystem effect: the `.txt` file
exists afterwards exactly when the write succeeded. -/
def saveTranscription (env : GroqEnv) (fs : FsState) (res : SvcResult)
    (outputDirectory : String) : Except String String × FsState :=
  match saveTranscriptionResult env res outputDirectory with
  | .ok p => (.ok p, p :: fs)
  | .error e => (.error e, fs)

/-- The failure record pushed by `processAudioDirectory`'s per-file
`catch` block. -/
def failureRecord (env : GroqEnv) (file filePath msg : String) : SvcResult :=
  { success := false, transcription := none, translation := none,
    error := some msg,
    metadata :=
      { fileName := file, originalFilePath := none, processedFilePath := none,
        filePath := some filePath, wasConverted := none, conversionInfo := none,
        model := none, language := none, targetLanguage := none,
        timestamp := env.now } }

/-- The supported-extension allow-list of `processAudioDirectory`. -/
def audioExtensions : List String :=
  [".mp3", ".wav", ".m4a", ".flac", ".ogg", ".opus", ".webm", ".mp4", ".mpeg", ".mpga"]

/-- The filter predicate of `processAudioDirectory`:
`audioExtensions.includes(path.extname(file).toLowerCase())`. -/
def audioPred (file : String) : Bool :=
  decide (lowerStr (extname file) ∈ audioExtensions)

/-- One iteration of the `for (const file of audioFiles)` loop of
`processAudioDirectory`: transcribe, push the result, optionally save
it; a thrown error (from transcription *or* saving) is caught and a
failure record is pushed — after the already-pushed success result
when saving was what threw. -/
def processOneFile (env : GroqEnv) (svc : AudioService) (dirPath : String)
    (opts : TranscribeOptions) (outDir : Option String) (file : String)
    (fs : FsState) : List SvcResult × FsState :=
  let filePath := join2 dirPath file
  let tr := transcribeFile env svc fs filePath opts
  match tr.1 with
  | .error e => ([failureRecord env file filePath e], tr.2)
  | .ok r =>
      match outDir with
      | none => ([r], tr.2)
      | some d =>
          let sv := saveTranscription env tr.2 r d
          match sv.1 with
          | .ok _ => ([r], sv.2)
          | .error e => ([r, failureRecord env file filePath e], sv.2)

/-- The whole loop of `processAudioDirectory`, accumulating the
`results` array in order. -/
def processFilesLoop (env : GroqEnv) (svc : AudioService) (dirPath : String)
    (opts : TranscribeOptions) (outDir : Option String) :
    List String → FsState → List SvcResult × FsState
  | [], fs => ([], fs)
  | file :: rest, fs =>
      let step := processOneFile env svc dirPath opts outDir file fs
      let next := processFilesLoop env svc dirPath opts outDir rest step.2
      (step.1 ++ next.1, next.2)

/-- Source `AudioService.processAudioDirectory`: list the directory, keep the
entries whose lowercased extension is in the allow-list, and run the
per-file loop; only a whole-directory failure propagates. -/
def processAudioDirectory (env : GroqEnv) (svc : AudioService) (fs : FsState)
    (audioDirectory : String) (opts : TranscribeOptions)
    (outputDirectory : Option String) :
    Except String (List SvcResult) × FsState :=
  match env.readdir audioDirectory with
  | .error e => (.error ("Error al procesar directorio de audio: " ++ e), fs)
  | .ok files =>
      let audioFiles := files.filter audioPred
      let out := processFilesLoop env svc audioDirectory opts outputDirectory audioFiles fs
      (.ok out.1, out.2)

/-- Source `AudioService.isValidAudioFile`. -/
def isValidAudioFile (filePath : String) : Bool :=
  let supportedExtensions :=
    [".mp3", ".wav", ".m4a", ".flac", ".ogg", ".opus", ".webm", ".mp4", ".mpeg", ".mpga"]
  decide (lowerStr (extname filePath) ∈ supportedExtensions)

/-! ## Concrete test fixtures -/

/-- Environment where every external collaborator succeeds. -/
def envAll : GroqEnv :=
  { ffmpeg := fun _ => none,
    transcribe := fun _ => .ok (.str "hola"),
    translate := fun _ => .ok (.str "hello"),
    mkdirOk := fun _ => true,
    writeOk := fun _ => true,
    readdir := fun _ => .ok [],
    now := "2026-01-01T00:00:00.000Z" }

/-- A service configured with the fast (turbo) model variant, the
constructor default of `AudioService`. -/
def svcTurbo : AudioService := ⟨"whisper-large-v3-turbo"⟩

/-- A batch environment over `dir` with three audio files where only
the middle one fails to transcribe. -/
def envBatch : GroqEnv :=
  { envAll with
    readdir := fun _ => .ok ["a.mp3", "b.mp3", "c.mp3"],
    transcribe := fun ps => if ps.file = "dir/b.mp3" then .error "boom" else .ok (.str "ok") }

/-- A batch environment where transcription succeeds but every file
write fails. -/
def envNoWrite : GroqEnv :=
  { envAll with readdir := fun _ => .ok ["a.mp3"], writeOk := fun _ => false }

/-- Whether a service call succeeded. -/
def exOk : Except String SvcResult → Bool
  | .ok _ => true
  | .error _ => false

/-- Placeholder used to name the value inside a known-successful
`Except` in closed statements. -/
def dummyResult : SvcResult :=
  { success := false, transcription := none, translation := none, error := none,
    metadata :=
      { fileName := "", originalFilePath := none, processedFilePath := none,
        filePath := none, wasConverted := none, conversionInfo := none,
        model := none, language := none, targetLanguage := none, timestamp := "" } }

/-- The payload of a successful call, `dummyResult` otherwise. -/
def okOr (e : Except String SvcResult) (d : SvcResult) : SvcResult :=
  match e with
  | .ok r => r
  | .error _ => d

/-! ## Lemmas about the path model -/

theorem takeWhile_append_all {p : Char → Bool} :
    ∀ {w z : List Char}, (∀ a ∈ w, p a = true) → (w ++ z).takeWhile p = w ++ z.takeWhile p := by
  intro w z h
  induction w with
  | nil => simp
  | cons a w ih =>
      have ha : p a = true := h a (List.mem_cons_self a w)
      simp only [List.cons_append, List.takeWhile_cons, ha, if_true]
      rw [ih (fun b hb => h b (List.mem_cons_of_mem a hb))]

theorem dropWhile_append_all {p : Char → Bool} :
    ∀ {w z : List Char}, (∀ a ∈ w, p a = true) → (w ++ z).dropWhile p = z.dropWhile p := by
  intro w z h
  induction w with
  | nil => simp
  | cons a w ih =>
      have ha : p a = true := h a (List.mem_cons_self a w)
      simp only [List.cons_append, List.dropWhile_cons, ha, if_true]
      exact ih (fun b hb => h b (List.mem_cons_of_mem a hb))

theorem afterLast_append {c : Char} {u v : List Char} (hv : c ∉ v) :
    afterLast c (u ++ c :: v) = v := by
  unfold afterLast
  have hrev : (u ++ c :: v).reverse = v.reverse ++ c :: u.reverse := by
    simp
  rw [hrev]
  have hall : ∀ a ∈ v.reverse, (fun a => decide (a ≠ c)) a = true := by
    intro a ha
    simp only [decide_eq_true_eq]
    exact fun h => hv (h ▸ List.mem_reverse.mp ha)
  rw [takeWhile_append_all hall]
  simp

theorem beforeLast_append {c : Char} {u v : List Char} (hv : c ∉ v) :
    beforeLast c (u ++ c :: v) = u := by
  unfold beforeLast
  have hrev : (u ++ c :: v).reverse = v.reverse ++ c :: u.reverse := by
    simp
  rw [hrev]
  have hall : ∀ a ∈ v.reverse, (fun a => decide (a ≠ c)) a = true := by
    intro a ha
    simp only [decide_eq_true_eq]
    exact fun h => hv (h ▸ List.mem_reverse.mp ha)
  rw [dropWhile_append_all hall]
  simp

theorem afterLast_of_not_mem {c : Char} {l : List Char} (h : c ∉ l) :
    afterLast c l = l := by
  unfold afterLast
  have hall : ∀ a ∈ l.reverse, (fun a => decide (a ≠ c)) a = true := by
    intro a ha
    simp only [decide_eq_true_eq]
    exact fun hc => h (hc ▸ List.mem_reverse.mp ha)
  rw [List.takeWhile_eq_self_iff.mpr hall]
  simp

theorem dropWhile_ne_eq_cons {c : Char} :
    ∀ {w : List Char}, c ∈ w →
      ∃ rest, w.dropWhile (fun a => decide (a ≠ c)) = c :: rest := by
  intro w h
  induction w with
  | nil => cases h
  | cons a w ih =>
      by_cases hac : a = c
      · subst hac
        exact ⟨w, by simp [List.dropWhile_cons]⟩
      · have hmem : c ∈ w := by
          cases List.mem_cons.mp h with
          | inl h' => exact absurd h'.symm hac
          | inr h' => exact h'
        obtain ⟨rest, hrest⟩ := ih hmem
        refine ⟨rest, ?_⟩
        rw [List.dropWhile_cons, if_pos (by simp [hac]), hrest]

/-- Splitting a list at the last occurrence of a character. -/
theorem split_at_last {c : Char} {l : List Char} (h : c ∈ l) :
    l = beforeLast c l ++ c :: afterLast c l ∧ c ∉ afterLast c l := by
  have hrev : c ∈ l.reverse := List.mem_reverse.mpr h
  obtain ⟨rest, hrest⟩ := dropWhile_ne_eq_cons hrev
  have hsplit := List.takeWhile_append_dropWhile (p := fun a => decide (a ≠ c)) (l := l.reverse)
  constructor
  · unfold beforeLast afterLast
    rw [hrest]
    have : l.reverse = l.reverse.takeWhile (fun a => decide (a ≠ c)) ++ c :: rest := by
      rw [← hrest, hsplit]
    calc l = l.reverse.reverse := by simp
    _ = (l.reverse.takeWhile (fun a => decide (a ≠ c)) ++ c :: rest).reverse := by rw [← this]
    _ = rest.reverse ++ c :: (l.reverse.takeWhile (fun a => decide (a ≠ c))).reverse := by simp
    _ = _ := by simp
  · unfold afterLast
    intro hmem
    have h1 : c ∈ l.reverse.takeWhile (fun a => decide (a ≠ c)) := List.mem_reverse.mp hmem
    have := List.mem_takeWhile_imp h1
    simp at this

theorem data_shape (d n : String) :
    (d ++ "/" ++ n).data = d.data ++ '/' :: n.data := by
  simp [String.data_append]

theorem mk_data_eq (s : String) : (⟨s.data⟩ : String) = s := rfl

theorem basename_shape {d n : String} (hn : '/' ∉ n.data) :
    basename (d ++ "/" ++ n) = n := by
  unfold basename
  rw [data_shape, afterLast_append hn]

theorem extname_shape {d n : String} (hn : '/' ∉ n.data) :
    extname (d ++ "/" ++ n) = ⟨extnameOfBase n.data⟩ := by
  unfold extname
  rw [data_shape, afterLast_append hn]

theorem parseName_shape {d n : String} (hn : '/' ∉ n.data) :
    parseName (d ++ "/" ++ n) = ⟨n.data.take (n.data.length - (extnameOfBase n.data).length)⟩ := by
  unfold parseName
  rw [data_shape, afterLast_append hn]

theorem dirname_shape {d n : String} (hd : d ≠ "") (hn : '/' ∉ n.data) :
    dirname (d ++ "/" ++ n) = d := by
  unfold dirname
  rw [data_shape]
  have hmem : '/' ∈ d.data ++ '/' :: n.data := List.mem_append_right _ (List.mem_cons_self _ _)
  rw [if_pos hmem, beforeLast_append hn]
  have hdd : d.data ≠ [] := fun hnil => hd (by cases d; simp_all)
  rw [if_neg hdd]

theorem basename_no_slash {n : String} (hn : '/' ∉ n.data) : basename n = n := by
  unfold basename
  rw [afterLast_of_not_mem hn]

theorem join2_shape {a b : String} (ha : a ≠ "") (hb : b ≠ "") :
    join2 a b = a ++ "/" ++ b := by
  unfold join2
  rw [if_neg ha, if_neg hb]

/-- Extension introduction: a basename of the form `m ++ '.' :: e`
with `m` nonempty and `e` a nonempty dot-free tail has extension
`'.' :: e`. -/
theorem extnameOfBase_split {m e : List Char} (hm : m ≠ []) (he : '.' ∉ e)
    (hene : e ≠ []) : extnameOfBase (m ++ '.' :: e) = '.' :: e := by
  unfold extnameOfBase
  have hdd : m ++ '.' :: e ≠ ['.', '.'] := by
    intro hcontra
    obtain ⟨x, hx⟩ := List.exists_mem_of_ne_nil e hene
    have hxb : x ∈ m ++ '.' :: e := List.mem_append_right _ (List.mem_cons_of_mem _ hx)
    rw [hcontra] at hxb
    have hxdot : x = '.' := by simpa using hxb
    exact he (hxdot ▸ hx)
  rw [if_neg hdd]
  have hmem : '.' ∈ m ++ '.' :: e := List.mem_append_right _ (List.mem_cons_self _ _)
  rw [if_pos hmem, beforeLast_append he, if_neg hm, afterLast_append he]

/-- Extension elimination: a nonempty extension splits the basename at
its last dot. -/
theorem extnameOfBase_elim {b e : List Char} (h : extnameOfBase b = '.' :: e) :
    ∃ m, m ≠ [] ∧ b = m ++ '.' :: e ∧ '.' ∉ e := by
  unfold extnameOfBase at h
  split_ifs at h with h1 h2 h3
  · have hae : afterLast '.' b = e := (List.cons.inj h).2
    obtain ⟨hsplit, hnot⟩ := split_at_last h2
    exact ⟨beforeLast '.' b, h3, hae ▸ hsplit, hae ▸ hnot⟩

/-! ## Structural lemmas about the pipeline

The filesystem reads of one pipeline invocation concern only the input
path, so results are stable under filesystem growth, and every
filesystem effect only adds files. -/

theorem processAudioFile_fst_stable (env : GroqEnv) {fs fs' : FsState} (p : String)
    (hmem : p ∈ fs) (hsub : ∀ q ∈ fs, q ∈ fs') :
    (processAudioFile env fs' p).1 = (processAudioFile env fs p).1 := by
  have hmem' : p ∈ fs' := hsub p hmem
  unfold processAudioFile convertOpusToMp4
  by_cases hc : needsConversion p = true
  · simp only [hc, if_true, if_pos hmem, if_pos hmem']
    cases env.ffmpeg p <;> rfl
  · simp only [if_neg hc]

theorem processAudioFile_mono (env : GroqEnv) (fs : FsState) (p : String) :
    ∀ q ∈ fs, q ∈ (processAudioFile env fs p).2 := by
  intro q hq
  unfold processAudioFile convertOpusToMp4
  by_cases hc : needsConversion p = true
  · simp only [hc, if_true]
    by_cases hm : p ∈ fs
    · simp only [if_pos hm]
      cases env.ffmpeg p
      · exact List.mem_cons_of_mem _ hq
      · exact hq
    · simp only [if_neg hm]
      exact hq
  · simp only [if_neg hc]
    exact hq

theorem transcribeFile_fst_stable (env : GroqEnv) (svc : AudioService)
    {fs fs' : FsState} (p : String) (opts : TranscribeOptions)
    (hmem : p ∈ fs) (hsub : ∀ q ∈ fs, q ∈ fs') :
    (transcribeFile env svc fs' p opts).1 = (transcribeFile env svc fs p opts).1 := by
  unfold transcribeFile
  rw [if_pos hmem, if_pos (hsub p hmem)]
  exact congrArg (transcribeAfter env svc p opts)
    (processAudioFile_fst_stable env p hmem hsub)

theorem transcribeFile_mono (env : GroqEnv) (svc : AudioService) (fs : FsState)
    (p : String) (opts : TranscribeOptions) :
    ∀ q ∈ fs, q ∈ (transcribeFile env svc fs p opts).2 := by
  intro q hq
  unfold transcribeFile
  by_cases hm : p ∈ fs
  · rw [if_pos hm]
    exact processAudioFile_mono env fs p q hq
  · rw [if_neg hm]
    exact hq

theorem translateFile_mono (env : GroqEnv) (svc : AudioService) (fs : FsState)
    (p : String) (opts : TranslateOptions) :
    ∀ q ∈ fs, q ∈ (translateFile env svc fs p opts).2 := by
  intro q hq
  unfold translateFile
  by_cases hm : p ∈ fs
  · rw [if_pos hm]
    exact processAudioFile_mono env fs p q hq
  · rw [if_neg hm]
    exact hq

theorem saveTranscription_mono (env : GroqEnv) (fs : FsState) (res : SvcResult)
    (d : String) : ∀ q ∈ fs, q ∈ (saveTranscription env fs res d).2 := by
  intro q hq
  unfold saveTranscription
  cases saveTranscriptionResult env res d
  · exact hq
  · exact List.mem_cons_of_mem _ hq

theorem transcribeFile_ok_shape {env : GroqEnv} {svc : AudioService} {fs : FsState}
    {p : String} {opts : TranscribeOptions} {r : SvcResult}
    (h : (transcribeFile env svc fs p opts).1 = .ok r) :
    r.success = true ∧ r.transcription.isSome = true := by
  unfold transcribeFile at h
  by_cases hm : p ∈ fs
  · rw [if_pos hm] at h
    simp only [transcribeAfter] at h
    by_cases hs : (processAudioFile env fs p).1.success = true
    · rw [if_pos hs] at h
      cases htr : env.transcribe (buildTranscriptionParams svc.model
          (((processAudioFile env fs p).1.processedPath).getD "") opts) with
      | error e => rw [htr] at h; cases h
      | ok pl =>
          rw [htr] at h
          cases Except.ok.inj h
          exact ⟨rfl, rfl⟩
    · rw [if_neg hs] at h; cases h
  · rw [if_neg hm] at h; cases h

theorem saveTranscriptionResult_ok {env : GroqEnv} {res : SvcResult} {d : String}
    (hmk : ∀ s, env.mkdirOk s = true) (hwr : ∀ s, env.writeOk s = true)
    (hp : res.transcription.isSome = true) :
    saveTranscriptionResult env res d =
      .ok (join2 d (parseName res.metadata.fileName ++ ".txt")) := by
  unfold saveTranscriptionResult
  rw [if_pos (hmk d)]
  cases hres : res.transcription with
  | none => rw [hres] at hp; cases hp
  | some pl =>
      dsimp only
      rw [if_pos (hwr _)]

/-- The report entry the batch loop produces for file `f`, phrased
against the initial filesystem (per-file results are stable under the
filesystem growth caused by earlier iterations). -/
def entryOf (env : GroqEnv) (svc : AudioService) (fs : FsState) (dirPath : String)
    (opts : TranscribeOptions) (f : String) : SvcResult :=
  match (transcribeFile env svc fs (join2 dirPath f) opts).1 with
  | .ok r => r
  | .error e => failureRecord env f (join2 dirPath f) e

/-- When every filesystem write succeeds, the batch loop produces
exactly one report entry per file, in order. -/
theorem processFilesLoop_map (env : GroqEnv) (svc : AudioService) (dirPath : String)
    (opts : TranscribeOptions) (outDir : Option String) (fs : FsState)
    (hmk : ∀ s, env.mkdirOk s = true) (hwr : ∀ s, env.writeOk s = true) :
    ∀ (l : List String) (fs' : FsState),
      (∀ f ∈ l, join2 dirPath f ∈ fs) → (∀ q ∈ fs, q ∈ fs') →
      (processFilesLoop env svc dirPath opts outDir l fs').1
        = l.map (entryOf env svc fs dirPath opts) := by
  intro l
  induction l with
  | nil => intro fs' _ _; rfl
  | cons f rest ih =>
      intro fs' hmem hsub
      have hf : join2 dirPath f ∈ fs := hmem f (List.mem_cons_self f rest)
      have hrest : ∀ g ∈ rest, join2 dirPath g ∈ fs :=
        fun g hg => hmem g (List.mem_cons_of_mem f hg)
      have hstab := transcribeFile_fst_stable env svc (join2 dirPath f) opts hf hsub
      have hmono : ∀ q ∈ fs, q ∈ (transcribeFile env svc fs' (join2 dirPath f) opts).2 :=
        fun q hq => transcribeFile_mono env svc fs' (join2 dirPath f) opts q (hsub q hq)
      simp only [processFilesLoop, processOneFile, List.map_cons, entryOf]
      rw [hstab]
      cases htr : (transcribeFile env svc fs (join2 dirPath f) opts).1 with
      | error e =>
          dsimp only
          rw [ih _ hrest hmono]
          exact List.singleton_append
      | ok r =>
          have hshape := transcribeFile_ok_shape htr
          cases outDir with
          | none =>
              dsimp only
              rw [ih _ hrest hmono]
              exact List.singleton_append
          | some d =>
              have hsave := @saveTranscriptionResult_ok env r d hmk hwr hshape.2
              dsimp only [saveTranscription]
              rw [hsave]
              dsimp only
              rw [ih _ (fun g hg => hrest g hg)
                (fun q hq => List.mem_cons_of_mem _ (hmono q hq))]
              exact List.singleton_append

/-- A successful `processAudioFile` without conversion passes the
original path through. -/
theorem processAudioFile_pass {env : GroqEnv} {fs : FsState} {p : String}
    (hs : (processAudioFile env fs p).1.success = true)
    (hw : (processAudioFile env fs p).1.wasConverted = false) :
    (processAudioFile env fs p).1.processedPath = some p := by
  unfold processAudioFile at hs hw ⊢
  by_cases hc : needsConversion p = true
  · simp only [hc, if_true] at hs hw ⊢
    cases hcv : (convertOpusToMp4 env fs p).1 with
    | ok c => rw [hcv] at hw; exact absurd hw (by simp)
    | error e => rw [hcv] at hs; exact absurd hs (by simp)
  · simp only [if_neg hc]

/-! ## Claims -/

/-- C6: `processAudioFile` never raises — the embedding is a total
function and each returned result carries `error = none` exactly when
`success = true` (so every failure, including conversion failure, is
reported through the `success`/`error` fields). -/
theorem C6_processAudioFile_never_raises (env : GroqEnv) (fs : FsState) (p : String) :
    (processAudioFile env fs p).1.success = (processAudioFile env fs p).1.error.isNone := by
  unfold processAudioFile
  by_cases hc : needsConversion p = true
  · simp only [hc, if_true]
    cases hcv : (convertOpusToMp4 env fs p).1 <;> rfl
  · simp only [if_neg hc]
    rfl

/-- C7: the `timestamp_granularities` field of the outbound request is
attached iff the resolved response format is `verbose_json` and the
resolved granularity list is non-empty; with any other response format
it is silently dropped (the builder is total, so this never errors). -/
theorem C7_granularities_gating (model f : String) (opts : TranscribeOptions) :
    (buildTranscriptionParams model f opts).timestamp_granularities =
      (if opts.responseFormat.getD "verbose_json" = "verbose_json"
          ∧ opts.timestampGranularities.getD ["segment"] ≠ [] then
        some (opts.timestampGranularities.getD ["segment"])
      else none) := by
  unfold buildTranscriptionParams
  by_cases h : opts.responseFormat.getD "verbose_json" = "verbose_json"
      ∧ 0 < (opts.timestampGranularities.getD ["segment"]).length
  · have hg : opts.responseFormat.getD "verbose_json" = "verbose_json"
        ∧ opts.timestampGranularities.getD ["segment"] ≠ [] :=
      ⟨h.1, List.length_pos.mp h.2⟩
    rw [if_pos h, if_pos hg]
  · have h' : ¬ (opts.responseFormat.getD "verbose_json" = "verbose_json"
        ∧ opts.timestampGranularities.getD ["segment"] ≠ []) := by
      intro hcontra
      exact h ⟨hcontra.1, List.length_pos.mpr hcontra.2⟩
    rw [if_neg h, if_neg h']
    by_cases h1 : truthyS opts.language = true
    · by_cases h2 : truthyS opts.prompt = true
      · rw [if_pos h1, if_pos h2]
      · rw [if_pos h1, if_neg h2]
    · by_cases h2 : truthyS opts.prompt = true
      · rw [if_neg h1, if_pos h2]
      · rw [if_neg h1, if_neg h2]

/-- C1 counterexample: for the converted input `audios/voice.opus` the
returned `metadata.fileName` is the name of the converted intermediate
(`voice.mp4`), not the base name of the original input
(`voice.opus`). -/
theorem C1_counterexample :
    (transcribeFile envAll svcTurbo ["audios/voice.opus"] "audios/voice.opus"
        {}).1.map (fun r => r.metadata.fileName) = .ok "voice.mp4"
    ∧ basename "audios/voice.opus" = "voice.opus"
    ∧ ("voice.mp4" : String) ≠ "voice.opus" := by
  refine ⟨rfl, rfl, by decide⟩

/-- C1 (amended): `metadata.fileName` equals the base name of the
*processed* file (`metadata.processedFilePath`); it equals the base
name of the original input only in the unconverted case
(`wasConverted = false`). -/
theorem C1_fileName_tracks_processed (env : GroqEnv) (svc : AudioService)
    (fs : FsState) (p : String) (opts : TranscribeOptions) (r : SvcResult)
    (h : (transcribeFile env svc fs p opts).1 = .ok r) :
    r.metadata.fileName = basename (r.metadata.processedFilePath.getD "")
    ∧ (r.metadata.wasConverted = some false → r.metadata.fileName = basename p) := by
  unfold transcribeFile at h
  by_cases hm : p ∈ fs
  · rw [if_pos hm] at h
    simp only [transcribeAfter] at h
    by_cases hs : (processAudioFile env fs p).1.success = true
    · rw [if_pos hs] at h
      cases htr : env.transcribe (buildTranscriptionParams svc.model
          (((processAudioFile env fs p).1.processedPath).getD "") opts) with
      | error e => rw [htr] at h; cases h
      | ok pl =>
          rw [htr] at h
          cases Except.ok.inj h
          refine ⟨rfl, ?_⟩
          intro hw
          have hwc : (processAudioFile env fs p).1.wasConverted = false :=
            Option.some.inj hw
          have hpp := processAudioFile_pass hs hwc
          show basename (((processAudioFile env fs p).1.processedPath).getD "") = basename p
          rw [hpp]
          rfl
    · rw [if_neg hs] at h; cases h
  · rw [if_neg hm] at h; cases h

/-- The concrete successful result used as C1's witness input. -/
def resC1 : SvcResult :=
  okOr (transcribeFile envAll svcTurbo ["audios/a.mp3"] "audios/a.mp3" {}).1
    dummyResult

/-- Witness: C1's amended theorem applied to a concrete unconverted
input, where the file name is the original base name. -/
theorem C1_fileName_tracks_processed_witness :
    (transcribeFile envAll svcTurbo ["audios/a.mp3"] "audios/a.mp3" {}).1 = .ok resC1
    ∧ (resC1.metadata.fileName = basename (resC1.metadata.processedFilePath.getD "")
       ∧ (resC1.metadata.wasConverted = some false →
           resC1.metadata.fileName = basename "audios/a.mp3")) :=
  ⟨rfl, C1_fileName_tracks_processed envAll svcTurbo ["audios/a.mp3"] "audios/a.mp3"
    {} resC1 rfl⟩

/-- The model actually sent by `translateFile` is the configured model
with the turbo variant replaced by the precise variant. -/
theorem buildTranslationParams_model (model f : String) (opts : TranslateOptions) :
    (buildTranslationParams model f opts).model =
      (if model = "whisper-large-v3-turbo" then "whisper-large-v3" else model) := by
  unfold buildTranslationParams
  by_cases hp : truthyS opts.prompt = true
  · rw [if_pos hp]
  · rw [if_neg hp]

/-- C5: with the fast-variant model configured, translation substitutes
the precise variant for that call only and records it in
`metadata.model`; the service value is never modified (the source
never assigns `this.model`, and the embedding passes the service by
value), so a transcription with the same service still records the
fast-variant identifier. -/
theorem C5_translation_model_substitution
    (env env' : GroqEnv) (fs fs' : FsState) (p q : String)
    (topts : TranslateOptions) (opts : TranscribeOptions) (r r' : SvcResult)
    (h : (translateFile env svcTurbo fs p topts).1 = .ok r)
    (h' : (transcribeFile env' svcTurbo fs' q opts).1 = .ok r') :
    r.metadata.model = some "whisper-large-v3"
    ∧ r'.metadata.model = some "whisper-large-v3-turbo"
    ∧ svcTurbo.model = "whisper-large-v3-turbo" := by
  refine ⟨?_, ?_, rfl⟩
  · unfold translateFile at h
    by_cases hm : p ∈ fs
    · rw [if_pos hm] at h
      simp only [translateAfter] at h
      by_cases hs : (processAudioFile env fs p).1.success = true
      · rw [if_pos hs] at h
        cases htr : env.translate (buildTranslationParams svcTurbo.model
            (((processAudioFile env fs p).1.processedPath).getD "") topts) with
        | error e => rw [htr] at h; cases h
        | ok pl =>
            rw [htr] at h
            cases Except.ok.inj h
            show some (buildTranslationParams svcTurbo.model
              (((processAudioFile env fs p).1.processedPath).getD "") topts).model
                = some "whisper-large-v3"
            rw [buildTranslationParams_model]
            rfl
      · rw [if_neg hs] at h; cases h
    · rw [if_neg hm] at h; cases h
  · unfold transcribeFile at h'
    by_cases hm : q ∈ fs'
    · rw [if_pos hm] at h'
      simp only [transcribeAfter] at h'
      by_cases hs : (processAudioFile env' fs' q).1.success = true
      · rw [if_pos hs] at h'
        cases htr : env'.transcribe (buildTranscriptionParams svcTurbo.model
            (((processAudioFile env' fs' q).1.processedPath).getD "") opts) with
        | error e => rw [htr] at h'; cases h'
        | ok pl =>
            rw [htr] at h'
            cases Except.ok.inj h'
            rfl
      · rw [if_neg hs] at h'; cases h'
    · rw [if_neg hm] at h'; cases h'

/-- The concrete translation result used as C5's witness. -/
def resC5tr : SvcResult :=
  okOr (translateFile envAll svcTurbo ["a/v.mp3"] "a/v.mp3" {}).1 dummyResult

/-- The concrete transcription result used as C5's witness. -/
def resC5ts : SvcResult :=
  okOr (transcribeFile envAll svcTurbo ["a/w.mp3"] "a/w.mp3" {}).1 dummyResult

/-- Witness: C5's theorem applied to one concrete translation call and
one concrete transcription call on the same configured service. -/
theorem C5_translation_model_substitution_witness :
    (translateFile envAll svcTurbo ["a/v.mp3"] "a/v.mp3" {}).1 = .ok resC5tr
    ∧ (transcribeFile envAll svcTurbo ["a/w.mp3"] "a/w.mp3" {}).1 = .ok resC5ts
    ∧ (resC5tr.metadata.model = some "whisper-large-v3"
       ∧ resC5ts.metadata.model = some "whisper-large-v3-turbo"
       ∧ svcTurbo.model = "whisper-large-v3-turbo") :=
  ⟨rfl, rfl,
    C5_translation_model_substitution envAll envAll ["a/v.mp3"] ["a/w.mp3"]
      "a/v.mp3" "a/w.mp3" {} {} resC5tr resC5ts rfl rfl⟩

/-- C8: the pipeline never deletes a file — every path existing before
an invocation of `processAudioFile`, `transcribeFile` or
`translateFile` still exists afterwards, and after a successful
conversion both the caller-supplied original and the derived file
exist. -/
theorem C8_no_file_deleted (env : GroqEnv) (svc : AudioService) (fs : FsState)
    (p : String) (opts : TranscribeOptions) (topts : TranslateOptions) :
    (∀ q ∈ fs, q ∈ (processAudioFile env fs p).2)
    ∧ (∀ q ∈ fs, q ∈ (transcribeFile env svc fs p opts).2)
    ∧ (∀ q ∈ fs, q ∈ (translateFile env svc fs p topts).2)
    ∧ ((processAudioFile env fs p).1.success = true →
        (processAudioFile env fs p).1.wasConverted = true →
        p ∈ (processAudioFile env fs p).2
        ∧ ((processAudioFile env fs p).1.processedPath.getD "")
            ∈ (processAudioFile env fs p).2) := by
  refine ⟨processAudioFile_mono env fs p, transcribeFile_mono env svc fs p opts,
    translateFile_mono env svc fs p topts, ?_⟩
  intro hs hw
  unfold processAudioFile at hs hw ⊢
  by_cases hc : needsConversion p = true
  · simp only [hc, if_true] at hs hw ⊢
    unfold convertOpusToMp4 at hs hw ⊢
    by_cases hm : p ∈ fs
    · simp only [if_pos hm] at hs hw ⊢
      cases hff : env.ffmpeg p with
      | none =>
          exact ⟨List.mem_cons_of_mem _ hm, List.mem_cons_self _ _⟩
      | some m =>
          rw [hff] at hs
          exact absurd hs (by simp)
    · simp only [if_neg hm] at hs
      exact absurd hs (by simp)
  · simp only [if_neg hc] at hw
    exact absurd hw (by simp)

/-- Witness: C8's theorem applied at a concrete filesystem containing
one `.opus` file that is successfully converted. -/
theorem C8_no_file_deleted_witness :
    ("audios/voice.opus" ∈
        (processAudioFile envAll ["audios/voice.opus"] "audios/voice.opus").2)
    ∧ ("audios/voice.opus" ∈
        (transcribeFile envAll svcTurbo ["audios/voice.opus"] "audios/voice.opus" {}).2)
    ∧ ("audios/voice.opus" ∈
        (translateFile envAll svcTurbo ["audios/voice.opus"] "audios/voice.opus" {}).2)
    ∧ ("audios/voice.opus" ∈
        (processAudioFile envAll ["audios/voice.opus"] "audios/voice.opus").2
       ∧ ((processAudioFile envAll ["audios/voice.opus"] "audios/voice.opus").1.processedPath.getD "")
            ∈ (processAudioFile envAll ["audios/voice.opus"] "audios/voice.opus").2) := by
  have h := C8_no_file_deleted envAll svcTurbo ["audios/voice.opus"]
    "audios/voice.opus" {} {}
  exact ⟨h.1 _ (by decide), h.2.1 _ (by decide), h.2.2.1 _ (by decide),
    h.2.2.2 (by decide) (by decide)⟩

/-- A report entry is a success entry iff the underlying
`transcribeFile` call succeeded. -/
theorem entryOf_success (env : GroqEnv) (svc : AudioService) (fs : FsState)
    (dirPath : String) (opts : TranscribeOptions) (f : String) :
    (entryOf env svc fs dirPath opts f).success =
      exOk (transcribeFile env svc fs (join2 dirPath f) opts).1 := by
  unfold entryOf exOk
  cases htr : (transcribeFile env svc fs (join2 dirPath f) opts).1 with
  | ok r => exact (transcribeFile_ok_shape htr).1
  | error e => rfl

/-- Every report entry is either a success or a failure entry, so the
two counts always add up to the report length. -/
theorem countP_success_split (l : List SvcResult) :
    l.countP (fun r => r.success) + l.countP (fun r => !r.success) = l.length := by
  induction l with
  | nil => rfl
  | cons a l ih =>
      simp only [List.countP_cons, List.length_cons]
      by_cases ha : a.success = true <;> simp [ha] <;> omega

/-- C2: batch failure isolation.  If the directory listing filters to
`N` audio files, every one of them exists, all filesystem writes
succeed, and transcription fails exactly for the file at position `k`,
then the report has exactly `N` entries, the entry at position `i` is
a failure record iff `i = k`, and success plus failure counts equal
`N` — every other file is still attempted and reported. -/
theorem C2_batch_failure_isolation (env : GroqEnv) (svc : AudioService)
    (fs : FsState) (dir : String) (opts : TranscribeOptions)
    (outDir : Option String) (files : List String) (k : Nat)
    (hls : env.readdir dir = .ok files)
    (hmk : ∀ s, env.mkdirOk s = true) (hwr : ∀ s, env.writeOk s = true)
    (hmem : ∀ f ∈ files.filter audioPred, join2 dir f ∈ fs)
    (hk : k < (files.filter audioPred).length)
    (hout : ∀ i (hi : i < (files.filter audioPred).length),
      exOk (transcribeFile env svc fs
        (join2 dir ((files.filter audioPred).get ⟨i, hi⟩)) opts).1 = decide (i ≠ k)) :
    (processAudioDirectory env svc fs dir opts outDir).1
      = .ok ((files.filter audioPred).map (entryOf env svc fs dir opts))
    ∧ ((files.filter audioPred).map (entryOf env svc fs dir opts)).length
        = (files.filter audioPred).length
    ∧ (∀ i (hi : i < ((files.filter audioPred).map
          (entryOf env svc fs dir opts)).length),
        (((files.filter audioPred).map (entryOf env svc fs dir opts)).get
            ⟨i, hi⟩).success = decide (i ≠ k))
    ∧ ((files.filter audioPred).map (entryOf env svc fs dir opts)).countP
          (fun r => r.success)
        + ((files.filter audioPred).map (entryOf env svc fs dir opts)).countP
          (fun r => !r.success)
        = ((files.filter audioPred).map (entryOf env svc fs dir opts)).length := by
  have hk' := hk
  refine ⟨?_, List.length_map _ _, ?_, countP_success_split _⟩
  · unfold processAudioDirectory
    rw [hls]
    dsimp only
    rw [processFilesLoop_map env svc dir opts outDir fs hmk hwr _ fs hmem
      (fun q hq => hq)]
  · intro i hi
    have hi' : i < (files.filter audioPred).length := by
      simpa using hi
    rw [List.get_map, entryOf_success]
    exact hout i hi'

/-- The initial filesystem of C2's witness scenario. -/
def fsBatch : FsState := ["dir/a.mp3", "dir/b.mp3", "dir/c.mp3"]

/-- Witness: C2 applied to a concrete three-file directory whose middle
file fails to transcribe, with an output directory provided. -/
theorem C2_batch_failure_isolation_witness :
    (processAudioDirectory envBatch svcTurbo fsBatch "dir" {} (some "texts")).1
      = .ok ((["a.mp3", "b.mp3", "c.mp3"].filter audioPred).map
          (entryOf envBatch svcTurbo fsBatch "dir" {}))
    ∧ ((["a.mp3", "b.mp3", "c.mp3"].filter audioPred).map
          (entryOf envBatch svcTurbo fsBatch "dir" {})).length
        = (["a.mp3", "b.mp3", "c.mp3"].filter audioPred).length
    ∧ (∀ i (hi : i < ((["a.mp3", "b.mp3", "c.mp3"].filter audioPred).map
          (entryOf envBatch svcTurbo fsBatch "dir" {})).length),
        (((["a.mp3", "b.mp3", "c.mp3"].filter audioPred).map
            (entryOf envBatch svcTurbo fsBatch "dir" {})).get ⟨i, hi⟩).success
          = decide (i ≠ 1))
    ∧ ((["a.mp3", "b.mp3", "c.mp3"].filter audioPred).map
          (entryOf envBatch svcTurbo fsBatch "dir" {})).countP (fun r => r.success)
        + ((["a.mp3", "b.mp3", "c.mp3"].filter audioPred).map
          (entryOf envBatch svcTurbo fsBatch "dir" {})).countP (fun r => !r.success)
        = ((["a.mp3", "b.mp3", "c.mp3"].filter audioPred).map
          (entryOf envBatch svcTurbo fsBatch "dir" {})).length := by
  refine C2_batch_failure_isolation envBatch svcTurbo fsBatch "dir" {} (some "texts")
    ["a.mp3", "b.mp3", "c.mp3"] 1 rfl (fun s => rfl) (fun s => rfl)
    (by decide) (by decide) ?_
  intro i hi
  have h3 : i < 3 := by simpa using hi
  interval_cases i <;> rfl

/-- C9: with an output directory provided, a file whose transcription
succeeds but whose transcript save throws yields two report entries —
the already-pushed success result followed by a failure record — so
the report is longer than the list of discovered audio files. -/
theorem C9_save_failure_double_entry (env : GroqEnv) (svc : AudioService)
    (fs : FsState) (dir d : String) (opts : TranscribeOptions)
    (files : List String) (f : String) (r : SvcResult) (e : String)
    (hls : env.readdir dir = .ok files)
    (hfilter : files.filter audioPred = [f])
    (htr : (transcribeFile env svc fs (join2 dir f) opts).1 = .ok r)
    (hsave : saveTranscriptionResult env r d = .error e) :
    (processAudioDirectory env svc fs dir opts (some d)).1
      = .ok [r, failureRecord env f (join2 dir f) e]
    ∧ r.success = true
    ∧ (failureRecord env f (join2 dir f) e).success = false
    ∧ (files.filter audioPred).length = 1 := by
  refine ⟨?_, (transcribeFile_ok_shape htr).1, rfl, by rw [hfilter]; rfl⟩
  unfold processAudioDirectory
  rw [hls]
  dsimp only
  rw [hfilter]
  simp only [processFilesLoop, processOneFile]
  rw [htr]
  dsimp only [saveTranscription]
  rw [hsave]
  rfl

/-- The concrete successful transcription of C9's witness scenario. -/
def resC9 : SvcResult :=
  okOr (transcribeFile envNoWrite svcTurbo ["dir/a.mp3"] "dir/a.mp3" {}).1
    dummyResult

/-- Witness: C9 applied to a one-file directory whose transcription
succeeds while the transcript write fails. -/
theorem C9_save_failure_double_entry_witness :
    (processAudioDirectory envNoWrite svcTurbo ["dir/a.mp3"] "dir" {} (some "texts")).1
      = .ok [resC9, failureRecord envNoWrite "a.mp3" (join2 "dir" "a.mp3")
          "Error al guardar transcripción: EACCES: permission denied, open texts/a.txt"]
    ∧ resC9.success = true
    ∧ (failureRecord envNoWrite "a.mp3" (join2 "dir" "a.mp3")
        "Error al guardar transcripción: EACCES: permission denied, open texts/a.txt").success
        = false
    ∧ ((["a.mp3"] : List String).filter audioPred).length = 1 :=
  C9_save_failure_double_entry envNoWrite svcTurbo ["dir/a.mp3"] "dir" "texts" {}
    ["a.mp3"] "a.mp3" resC9
    "Error al guardar transcripción: EACCES: permission denied, open texts/a.txt"
    rfl rfl rfl rfl

/-- Whether a save operation succeeded. -/
def exSaveOk : Except String String → Bool
  | .ok _ => true
  | .error _ => false

/-- C4 counterexample: `saveTranscription` fails on a translation
result — whose `transcription` key is absent — with a `TypeError`,
even though every filesystem operation in the environment succeeds;
so it can fail because of the payload's shape, not only on filesystem
failure. -/
theorem C4_counterexample :
    (translateFile envAll svcTurbo ["a/v.mp3"] "a/v.mp3" {}).1.map
        (fun r => (saveTranscription envAll ["a/v.mp3"] r "texts").1)
      = .ok (.error "Error al guardar transcripción: Cannot read properties of undefined (reading 'text')")
    ∧ envAll.mkdirOk = (fun _ => true)
    ∧ envAll.writeOk = (fun _ => true) :=
  ⟨rfl, rfl, rfl⟩

/-- C4 (amended): for every result carrying a `transcription` payload
of any shape (bare string, object with a text field, or any other
object), `saveTranscription` succeeds iff the directory creation and
the file write succeed — its outcome is independent of the payload's
shape.  A result without a `transcription` key (such as a translation
result) instead fails with a `TypeError` regardless of the
filesystem. -/
theorem C4_save_fails_only_on_fs (env : GroqEnv) (res : SvcResult) (d : String)
    (pl : Payload) (h : res.transcription = some pl) :
    exSaveOk (saveTranscriptionResult env res d)
      = (env.mkdirOk d
          && env.writeOk (join2 d (parseName res.metadata.fileName ++ ".txt"))) := by
  unfold saveTranscriptionResult
  cases hmkv : env.mkdirOk d with
  | false => rfl
  | true =>
      dsimp only
      rw [h]
      cases hwv : env.writeOk (join2 d (parseName res.metadata.fileName ++ ".txt")) with
      | false => rfl
      | true => rfl

/-- A structured result without a text field, used as C4's witness. -/
def resC4 : SvcResult :=
  { success := true, transcription := some (.obj none "estructura"),
    translation := none, error := none,
    metadata := { dummyResult.metadata with fileName := "x.mp3" } }

/-- Witness: C4's amended theorem applied to a concrete structured
payload without a text field, in the all-succeeding environment. -/
theorem C4_save_fails_only_on_fs_witness :
    resC4.transcription = some (Payload.obj none "estructura")
    ∧ exSaveOk (saveTranscriptionResult envAll resC4 "texts")
        = (envAll.mkdirOk "texts"
            && envAll.writeOk (join2 "texts" (parseName resC4.metadata.fileName ++ ".txt"))) :=
  ⟨rfl, C4_save_fails_only_on_fs envAll resC4 "texts" (Payload.obj none "estructura") rfl⟩

/-! ## Lemmas about the derived conversion path -/

theorem str_ne_empty {s : String} (h : s.data ≠ []) : s ≠ "" :=
  fun he => h (congrArg String.data he)

/-- Node `path.basename(p, '.opus')` strips a literal `.opus` suffix. -/
theorem basenameExt_strip {d n : String} {m : List Char} (hn : '/' ∉ n.data)
    (hb : n.data = m ++ (".opus" : String).data) (hm : m ≠ []) :
    basenameExt (d ++ "/" ++ n) ".opus" = ⟨m⟩ := by
  unfold basenameExt
  rw [data_shape, afterLast_append hn]
  have hbe : n.data ≠ (".opus" : String).data := fun he =>
    hm (List.append_left_eq_self.mp (hb.symm.trans he))
  have hcond : (".opus" : String).data ≠ [] ∧ n.data ≠ (".opus" : String).data
      ∧ (".opus" : String).data <:+ n.data :=
    ⟨by decide, hbe, ⟨m, hb.symm⟩⟩
  rw [if_pos hcond, hb]
  have hlen : (m ++ (".opus" : String).data).length - (".opus" : String).data.length
      = m.length := by simp
  rw [hlen, List.take_left]

/-- Node `path.basename(p, '.opus')` leaves the basename alone when its
literal extension is not lowercase `.opus` (the match is
case-sensitive). -/
theorem basenameExt_no_strip {d n : String} (hn : '/' ∉ n.data)
    (hne : extname (d ++ "/" ++ n) ≠ ".opus") :
    basenameExt (d ++ "/" ++ n) ".opus" = n := by
  unfold basenameExt
  rw [data_shape, afterLast_append hn]
  have hcond : ¬ ((".opus" : String).data ≠ [] ∧ n.data ≠ (".opus" : String).data
      ∧ (".opus" : String).data <:+ n.data) := by
    rintro ⟨-, hbe, t, ht⟩
    have hm : t ≠ [] := fun h0 => hbe (by rw [← ht, h0]; rfl)
    have ht' : t ++ '.' :: "opus".data = n.data := ht
    have hext : extnameOfBase n.data = '.' :: "opus".data :=
      ht' ▸ extnameOfBase_split hm (by decide) (by decide)
    exact hne (by rw [extname_shape hn, hext])
  rw [if_neg hcond]

/-- The derived output path after a genuine lowercase `.opus` strip. -/
theorem convertTarget_strip {d n : String} {m : List Char} (hd : d ≠ "")
    (hn : '/' ∉ n.data) (hb : n.data = m ++ (".opus" : String).data) (hm : m ≠ []) :
    convertTarget (d ++ "/" ++ n) = d ++ "/" ++ (⟨m⟩ ++ ".mp4") := by
  have hne2 : (⟨m⟩ ++ ".mp4" : String) ≠ "" := str_ne_empty (by
    rw [String.data_append]
    intro h0
    exact absurd (List.append_eq_nil.mp h0).2 (by decide))
  unfold convertTarget
  rw [basenameExt_strip hn hb hm, dirname_shape hd hn, join2_shape hd hne2]

/-- The derived output path merely appends `.mp4` when the extension
is not literally lowercase `.opus`. -/
theorem convertTarget_append {d n : String} (hd : d ≠ "") (hn : '/' ∉ n.data)
    (hne : extname (d ++ "/" ++ n) ≠ ".opus") :
    convertTarget (d ++ "/" ++ n) = (d ++ "/" ++ n) ++ ".mp4" := by
  have hne2 : (n ++ ".mp4" : String) ≠ "" := str_ne_empty (by
    rw [String.data_append]
    intro h0
    exact absurd (List.append_eq_nil.mp h0).2 (by decide))
  unfold convertTarget
  rw [basenameExt_no_strip hn hne, dirname_shape hd hn, join2_shape hd hne2]
  apply String.ext
  simp [String.data_append]

/-- Extension, stem and directory of the stripped conversion target. -/
theorem converted_path_fields {d n : String} {m : List Char} (hd : d ≠ "")
    (hn : '/' ∉ n.data) (hb : n.data = m ++ (".opus" : String).data) (hm : m ≠ []) :
    extname (d ++ "/" ++ (⟨m⟩ ++ ".mp4")) = ".mp4"
    ∧ parseName (d ++ "/" ++ (⟨m⟩ ++ ".mp4")) = parseName (d ++ "/" ++ n)
    ∧ dirname (d ++ "/" ++ (⟨m⟩ ++ ".mp4")) = dirname (d ++ "/" ++ n) := by
  have hmn : ∀ x ∈ m, x ∈ n.data := fun x hx => hb ▸ List.mem_append_left _ hx
  have hq : '/' ∉ (⟨m⟩ ++ ".mp4" : String).data := by
    rw [String.data_append]
    intro hmem
    rcases List.mem_append.mp hmem with h1 | h2
    · exact hn (hmn _ h1)
    · exact absurd h2 (by decide)
  have hdataq : (⟨m⟩ ++ ".mp4" : String).data = m ++ '.' :: "mp4".data :=
    String.data_append _ _
  have hext : extnameOfBase ((⟨m⟩ ++ ".mp4" : String).data) = '.' :: "mp4".data := by
    rw [hdataq]
    exact extnameOfBase_split hm (by decide) (by decide)
  have hb' : n.data = m ++ '.' :: "opus".data := hb
  have hextn : extnameOfBase n.data = '.' :: "opus".data := by
    rw [hb']
    exact extnameOfBase_split hm (by decide) (by decide)
  refine ⟨?_, ?_, ?_⟩
  · rw [extname_shape hq, hext]
  · rw [parseName_shape hq, parseName_shape hn, hext, hextn, hdataq, hb']
    have h1 : (m ++ '.' :: "mp4".data).length - ('.' :: "mp4".data).length
        = m.length := by simp
    have h2 : (m ++ '.' :: "opus".data).length - ('.' :: "opus".data).length
        = m.length := by simp
    rw [h1, h2, List.take_left, List.take_left]
  · rw [dirname_shape hd hq, dirname_shape hd hn]

/-- A `.opus` file that exists and converts cleanly yields the full
success `ConversionResult`. -/
theorem processAudioFile_convert_ok {env : GroqEnv} {fs : FsState} {p : String}
    (hc : needsConversion p = true) (hm : p ∈ fs) (hff : env.ffmpeg p = none) :
    (processAudioFile env fs p).1 =
      { success := true, originalPath := p, processedPath := some (convertTarget p),
        wasConverted := true, originalFormat := some "opus",
        targetFormat := some "mp4", error := none } := by
  unfold processAudioFile convertOpusToMp4
  simp only [hc, if_true, if_pos hm, hff]

/-- A file that does not need conversion is passed through. -/
theorem processAudioFile_noconv {env : GroqEnv} {fs : FsState} {p : String}
    (hc : needsConversion p = false) :
    (processAudioFile env fs p).1 =
      { success := true, originalPath := p, processedPath := some p,
        wasConverted := false, originalFormat := none, targetFormat := none,
        error := none } := by
  unfold processAudioFile
  rw [if_neg (by rw [hc]; exact Bool.false_ne_true)]

/-- C3 counterexample: `audios/voice.OPUS` has a supported extension
and, case-insensitively, the legacy one — yet `processAudioFile`
converts it (so the claim's "otherwise wasConverted=false" branch,
read with the literal `.opus`, fails) and the derived path
`audios/voice.OPUS.mp4` does not preserve the base name (so the claim's
legacy branch, read case-insensitively, fails as well). -/
theorem C3_counterexample :
    isValidAudioFile "audios/voice.OPUS" = true
    ∧ lowerStr (extname "audios/voice.OPUS") = ".opus"
    ∧ extname "audios/voice.OPUS" ≠ ".opus"
    ∧ (processAudioFile envAll ["audios/voice.OPUS"] "audios/voice.OPUS").1.wasConverted = true
    ∧ (processAudioFile envAll ["audios/voice.OPUS"] "audios/voice.OPUS").1.processedPath
        = some "audios/voice.OPUS.mp4"
    ∧ (processAudioFile envAll ["audios/voice.OPUS"] "audios/voice.OPUS").1.processedPath
        ≠ some "audios/voice.OPUS"
    ∧ parseName "audios/voice.OPUS.mp4" ≠ parseName "audios/voice.OPUS" := by
  refine ⟨rfl, rfl, by decide, rfl, rfl, by decide, by decide⟩

/-- C3 (amended): over paths `d ++ "/" ++ n` of a directory and a
plain file name: (i) a file that does not need conversion is passed
through with `wasConverted=false` and `processedPath = originalPath`;
(ii) a file whose literal extension is the lowercase legacy `.opus`
converts (when it exists and ffmpeg succeeds) with
`originalFormat='opus'`, `targetFormat='mp4'`, and a processed path
with the `.mp4` target extension, the same base name and the same
directory; (iii) a file matching the legacy extension only
case-insensitively (e.g. `.OPUS`) is converted too, but `.mp4` is
appended to the whole file name instead of replacing the extension. -/
theorem C3_format_policy (env : GroqEnv) (fs : FsState) (d n : String)
    (hd : d ≠ "") (hn : '/' ∉ n.data)
    (hsup : lowerStr (extname (d ++ "/" ++ n)) ∈ audioExtensions) :
    (needsConversion (d ++ "/" ++ n) = false →
      (processAudioFile env fs (d ++ "/" ++ n)).1.wasConverted = false
      ∧ (processAudioFile env fs (d ++ "/" ++ n)).1.processedPath = some (d ++ "/" ++ n)
      ∧ (processAudioFile env fs (d ++ "/" ++ n)).1.success = true)
    ∧ (extname (d ++ "/" ++ n) = ".opus" →
        (d ++ "/" ++ n) ∈ fs → env.ffmpeg (d ++ "/" ++ n) = none →
        (processAudioFile env fs (d ++ "/" ++ n)).1.success = true
        ∧ (processAudioFile env fs (d ++ "/" ++ n)).1.wasConverted = true
        ∧ (processAudioFile env fs (d ++ "/" ++ n)).1.originalFormat = some "opus"
        ∧ (processAudioFile env fs (d ++ "/" ++ n)).1.targetFormat = some "mp4"
        ∧ (processAudioFile env fs (d ++ "/" ++ n)).1.processedPath
            = some (convertTarget (d ++ "/" ++ n))
        ∧ extname (convertTarget (d ++ "/" ++ n)) = ".mp4"
        ∧ parseName (convertTarget (d ++ "/" ++ n)) = parseName (d ++ "/" ++ n)
        ∧ dirname (convertTarget (d ++ "/" ++ n)) = dirname (d ++ "/" ++ n))
    ∧ (needsConversion (d ++ "/" ++ n) = true → extname (d ++ "/" ++ n) ≠ ".opus" →
        (d ++ "/" ++ n) ∈ fs → env.ffmpeg (d ++ "/" ++ n) = none →
        (processAudioFile env fs (d ++ "/" ++ n)).1.wasConverted = true
        ∧ (processAudioFile env fs (d ++ "/" ++ n)).1.processedPath
            = some ((d ++ "/" ++ n) ++ ".mp4")) := by
  refine ⟨?_, ?_, ?_⟩
  · intro hc
    rw [processAudioFile_noconv hc]
    exact ⟨rfl, rfl, rfl⟩
  · intro hx hpm hff
    have hc : needsConversion (d ++ "/" ++ n) = true := by
      unfold needsConversion
      rw [hx]
      decide
    have hexn : extnameOfBase n.data = '.' :: "opus".data :=
      congrArg String.data ((extname_shape hn).symm.trans hx)
    obtain ⟨m, hm, hb0, -⟩ := extnameOfBase_elim hexn
    have hb : n.data = m ++ (".opus" : String).data := hb0
    have hfields := converted_path_fields hd hn hb hm
    have hct := convertTarget_strip hd hn hb hm
    rw [processAudioFile_convert_ok hc hpm hff]
    refine ⟨rfl, rfl, rfl, rfl, rfl, ?_, ?_, ?_⟩
    · rw [hct]; exact hfields.1
    · rw [hct]; exact hfields.2.1
    · rw [hct]; exact hfields.2.2
  · intro hc hne hpm hff
    rw [processAudioFile_convert_ok hc hpm hff]
    refine ⟨rfl, ?_⟩
    rw [convertTarget_append hd hn hne]

/-- Witness: C3's amended theorem applied to the lowercase legacy file
`audios/voice.opus` in an environment where conversion succeeds. -/
theorem C3_format_policy_witness :
    (processAudioFile envAll ["audios" ++ "/" ++ "voice.opus"]
        ("audios" ++ "/" ++ "voice.opus")).1.success = true
    ∧ (processAudioFile envAll ["audios" ++ "/" ++ "voice.opus"]
        ("audios" ++ "/" ++ "voice.opus")).1.wasConverted = true
    ∧ (processAudioFile envAll ["audios" ++ "/" ++ "voice.opus"]
        ("audios" ++ "/" ++ "voice.opus")).1.originalFormat = some "opus"
    ∧ (processAudioFile envAll ["audios" ++ "/" ++ "voice.opus"]
        ("audios" ++ "/" ++ "voice.opus")).1.targetFormat = some "mp4"
    ∧ (processAudioFile envAll ["audios" ++ "/" ++ "voice.opus"]
        ("audios" ++ "/" ++ "voice.opus")).1.processedPath
        = some (convertTarget ("audios" ++ "/" ++ "voice.opus"))
    ∧ extname (convertTarget ("audios" ++ "/" ++ "voice.opus")) = ".mp4"
    ∧ parseName (convertTarget ("audios" ++ "/" ++ "voice.opus"))
        = parseName ("audios" ++ "/" ++ "voice.opus")
    ∧ dirname (convertTarget ("audios" ++ "/" ++ "voice.opus"))
        = dirname ("audios" ++ "/" ++ "voice.opus") := by
  have h := C3_format_policy envAll ["audios" ++ "/" ++ "voice.opus"]
    "audios" "voice.opus" (by decide) (by decide) (by decide)
  exact h.2.1 (by decide) (by decide) rfl

/-- C10: `needsConversion` matches the legacy extension
case-insensitively, but the derived output path of the converter only
strips the literal lowercase `.opus` suffix — for an uppercase variant
the `.mp4` target extension is appended to the whole name. -/
theorem C10_case_mismatch_appends (env : GroqEnv) (fs : FsState) (d n : String)
    (hd : d ≠ "") (hn : '/' ∉ n.data)
    (hlow : lowerStr (extname (d ++ "/" ++ n)) = ".opus")
    (hne : extname (d ++ "/" ++ n) ≠ ".opus") :
    needsConversion (d ++ "/" ++ n) = true
    ∧ convertTarget (d ++ "/" ++ n) = (d ++ "/" ++ n) ++ ".mp4"
    ∧ ((d ++ "/" ++ n) ∈ fs → env.ffmpeg (d ++ "/" ++ n) = none →
        (convertOpusToMp4 env fs (d ++ "/" ++ n)).1
          = .ok ((d ++ "/" ++ n) ++ ".mp4")) := by
  have h1 : needsConversion (d ++ "/" ++ n) = true := by
    unfold needsConversion
    rw [hlow]
    decide
  refine ⟨h1, convertTarget_append hd hn hne, fun hm hff => ?_⟩
  unfold convertOpusToMp4
  rw [if_pos hm, hff]
  dsimp only
  rw [convertTarget_append hd hn hne]

/-- Witness: C10 applied to the concrete uppercase-variant input
`audios/voice.OPUS`: it is converted and the derived path is
`audios/voice.OPUS.mp4`. -/
theorem C10_case_mismatch_appends_witness :
    needsConversion ("audios" ++ "/" ++ "voice.OPUS") = true
    ∧ convertTarget ("audios" ++ "/" ++ "voice.OPUS")
        = ("audios" ++ "/" ++ "voice.OPUS") ++ ".mp4"
    ∧ (convertOpusToMp4 envAll ["audios" ++ "/" ++ "voice.OPUS"]
        ("audios" ++ "/" ++ "voice.OPUS")).1
        = .ok (("audios" ++ "/" ++ "voice.OPUS") ++ ".mp4") := by
  have h := C10_case_mismatch_appends envAll ["audios" ++ "/" ++ "voice.OPUS"]
    "audios" "voice.OPUS" (by decide) (by decide) (by decide) (by decide)
  exact ⟨h.1, h.2.1, h.2.2 (by decide) rfl⟩

end AnyAudio
